import Mathlib

/-!
Shallow embedding of the depth-bounded Merkle authentication path of
`console/collections/src/merkle_tree/path/mod.rs` (snarkVM): the `MerklePath`
data type, its validated construction (`TryFrom`), the verification algorithm
(`MerklePath::verify`), the binary codec (`FromBytes` / `ToBytes`) and the
size formula used by the self-describing deserializer (`Deserialize`).

The opaque `Field<E>` hash type is a type parameter `F` with decidable
equality; the compile-time `DEPTH` parameter is passed explicitly; the two
fallible hashing capabilities are functions into `Option`; bytes are `Nat`
values; machine integers are `Nat` (every cast in the source is lossless, and
the `u128` bound comparison is exact for `DEPTH ≤ 64`).
-/

set_option linter.unusedSectionVars false

namespace SnarkVM

/-- The Merkle authentication path (source lines 27-33): a `u64` leaf index and
the list of sibling hashes from the leaf level to the level just below the
root. -/
structure MerklePath (F : Type) where
  leaf_index : Nat
  siblings : List F
deriving DecidableEq

/-- The construction error taxonomy named by the spec for the three `ensure!`
checks of `TryFrom` (both depth checks report `InvalidDepth`). -/
inductive MerkleError where
  | InvalidDepth
  | LeafIndexOutOfBounds
  | PathLengthMismatch
deriving DecidableEq

variable {F : Type} [DecidableEq F] {L : Type}

/-- `TryFrom<(u64, Vec<Field<E>>)> for MerklePath` (source lines 35-51): the
four `ensure!` checks in source order. The `u64 → u128` cast of `leaf_index`
is lossless so the bound check is the exact `Nat` comparison
`leaf_index < 2 ^ DEPTH`. -/
def try_from (DEPTH : Nat) (leaf_index : Nat) (siblings : List F) :
    Except MerkleError (MerklePath F) :=
  if DEPTH = 0 then .error .InvalidDepth
  else if 64 < DEPTH then .error .InvalidDepth
  else if 2 ^ DEPTH ≤ leaf_index then .error .LeafIndexOutOfBounds
  else if siblings.length ≠ DEPTH then .error .PathLengthMismatch
  else .ok ⟨leaf_index, siblings⟩

/-- The indicator bits of `verify` (source line 95):
`(0..DEPTH).map(|i| ((self.leaf_index >> i) & 1) == 0)`. `true` means the
running hash is the left child at that level. -/
def indicators (DEPTH : Nat) (leaf_index : Nat) : List Bool :=
  (List.range DEPTH).map (fun i => (leaf_index >>> i) &&& 1 == 0)

/-- Itertools `zip_eq` (source line 98), with an explicit panic modality:
`none` is the panic `zip_eq` raises when the two sequences have different
lengths. -/
def zip_eq : List α → List β → Option (List (α × β))
  | [], [] => some []
  | x :: xs, y :: ys => (zip_eq xs ys).map (fun l => (x, y) :: l)
  | _, _ => none

/-- The `(left, right)` ordering at one level (source lines 100-103): when the
indicator is `true` the running hash is the left child, otherwise the sibling
is. -/
def child_order (indicator : Bool) (current_hash sibling_hash : F) : F × F :=
  match indicator with
  | true => (current_hash, sibling_hash)
  | false => (sibling_hash, current_hash)

/-- The verification loop (source lines 98-112): at each level order
`(left, right)` by the indicator bit, then call `hash_children`; `none` when a
`hash_children` call fails (the source then returns `false`). -/
def fold_levels (hash_children : F → F → Option F) :
    F → List (Bool × F) → Option F
  | current_hash, [] => some current_hash
  | current_hash, (indicator, sibling_hash) :: rest =>
    match hash_children (child_order indicator current_hash sibling_hash).1
        (child_order indicator current_hash sibling_hash).2 with
    | some h => fold_levels hash_children h rest
    | none => none

/-- `MerklePath::verify` (source lines 65-116). The result is `Option Bool`:
`some b` is a normal boolean return; `none` is a panic, which only the
`zip_eq` call could raise. The defensive bound and length checks, the fallible
leaf hash, the indicator-ordered loop and the final root comparison follow the
source line by line. -/
def verify (DEPTH : Nat) (hash_leaf : L → Option F)
    (hash_children : F → F → Option F) (root : F) (leaf : L)
    (p : MerklePath F) : Option Bool :=
  if 2 ^ DEPTH ≤ p.leaf_index then some false
  else if p.siblings.length ≠ DEPTH then some false
  else
    match hash_leaf leaf with
    | none => some false
    | some current_hash =>
      match zip_eq (indicators DEPTH p.leaf_index) p.siblings with
      | none => none
      | some levels =>
        match fold_levels hash_children current_hash levels with
        | none => some false
        | some final_hash => some (decide (final_hash = root))

/-- `fold_levels` instrumented with a running count of `hash_children`
calls. -/
def fold_levels_count (hash_children : F → F → Option F) :
    F → List (Bool × F) → Nat → Option F × Nat
  | current_hash, [], n => (some current_hash, n)
  | current_hash, (indicator, sibling_hash) :: rest, n =>
    match hash_children (child_order indicator current_hash sibling_hash).1
        (child_order indicator current_hash sibling_hash).2 with
    | some h => fold_levels_count hash_children h rest (n + 1)
    | none => (none, n + 1)

/-- `verify` instrumented with call counts: the same control flow as `verify`,
returning also the number of `hash_leaf` calls and the number of
`hash_children` calls the source makes on that path. -/
def verify_count (DEPTH : Nat) (hash_leaf : L → Option F)
    (hash_children : F → F → Option F) (root : F) (leaf : L)
    (p : MerklePath F) : Option Bool × Nat × Nat :=
  if 2 ^ DEPTH ≤ p.leaf_index then (some false, 0, 0)
  else if p.siblings.length ≠ DEPTH then (some false, 0, 0)
  else
    match hash_leaf leaf with
    | none => (some false, 1, 0)
    | some current_hash =>
      match zip_eq (indicators DEPTH p.leaf_index) p.siblings with
      | none => (none, 1, 0)
      | some levels =>
        match fold_levels_count hash_children current_hash levels 0 with
        | (none, n) => (some false, 1, n)
        | (some final_hash, n) => (some (decide (final_hash = root)), 1, n)

/-- The upward fold described by the spec for claim C1, written from the
spec's words: starting from the leaf hash, at level `i` the pair hashed is
`(current, siblings[i])` when bit `i` of the leaf index is 0 and
`(siblings[i], current)` when bit `i` is 1. -/
def spec_fold (f : F → F → F) (leaf_index : Nat) : Nat → F → List F → F
  | _, current, [] => current
  | i, current, s :: rest =>
    spec_fold f leaf_index (i + 1)
      (if leaf_index.testBit i then f s current else f current s) rest

/-- Little-endian base-256 encoding of `n` on exactly `k` bytes (the value
modulo `2 ^ (8 * k)`); `to_le_bytes n 8` is the fixed 8-byte `u64` layout of
`ToBytes` (source line 138). -/
def to_le_bytes : Nat → Nat → List Nat
  | _, 0 => []
  | n, k + 1 => n % 256 :: to_le_bytes (n / 256) k

/-- Value of a little-endian byte list. -/
def from_le_bytes : List Nat → Nat
  | [] => 0
  | b :: rest => b + 256 * from_le_bytes rest

/-- `u64::read_le` (source line 124): read exactly 8 little-endian bytes,
failing when fewer remain; returns the value and the rest of the stream. -/
def read_u64 (bytes : List Nat) : Option (Nat × List Nat) :=
  if bytes.length < 8 then none
  else some (from_le_bytes (bytes.take 8), bytes.drop 8)

/-- The sibling-reading loop of `FromBytes::read_le` (source lines 126-127):
read `DEPTH` field elements in sequence with the field decoder `from_bytes_F`,
failing if any read fails. -/
def read_fields (from_bytes_F : List Nat → Option (F × List Nat)) :
    Nat → List Nat → Option (List F × List Nat)
  | 0, bytes => some ([], bytes)
  | k + 1, bytes =>
    match from_bytes_F bytes with
    | none => none
    | some (x, rest) =>
      match read_fields from_bytes_F k rest with
      | none => none
      | some (xs, rest2) => some (x :: xs, rest2)

/-- `FromBytes for MerklePath` (source lines 119-131): read the `u64` leaf
index, then `DEPTH` siblings, then validate through `try_from`. The
field-element decoder is a parameter; per the spec it reads a canonical
fixed-length encoding. `none` covers both the IO error and the `try_from`
error, which the source maps into an IO error. -/
def read_le (DEPTH : Nat) (from_bytes_F : List Nat → Option (F × List Nat))
    (bytes : List Nat) : Option (MerklePath F × List Nat) :=
  match read_u64 bytes with
  | none => none
  | some (leaf_index, rest) =>
    match read_fields from_bytes_F DEPTH rest with
    | none => none
    | some (siblings, rest2) =>
      match try_from DEPTH leaf_index siblings with
      | .error _ => none
      | .ok p => some (p, rest2)

/-- `ToBytes for MerklePath` (source lines 133-142): the leaf index as 8
little-endian bytes, then each sibling's canonical encoding `to_bytes_F`,
level 0 first. -/
def write_le (to_bytes_F : F → List Nat) (p : MerklePath F) : List Nat :=
  to_le_bytes p.leaf_index 8 ++ (p.siblings.map to_bytes_F).flatten

/-- The buffer size computed by `Deserialize for MerklePath` (source line
153): `8 + DEPTH as usize * (Field::<E>::size_in_bits() + 7) / 8`. Rust `*`
and `/` have equal precedence and associate to the left, so this is
`8 + (DEPTH * (bits + 7)) / 8`; Lean's `Nat` `*` and `/` parse the same
way. -/
def expected_size (DEPTH : Nat) (bits : Nat) : Nat :=
  8 + DEPTH * (bits + 7) / 8

/-- The size formula as the spec's Contract C states it, written from the
spec's words for claim C4: `8 + ceil(DEPTH * field_element_bit_length / 8)`. -/
def spec_expected_size (DEPTH : Nat) (bits : Nat) : Nat :=
  8 + (DEPTH * bits + 7) / 8

/-- Modelled from the spec: the byte length of one field element's canonical
fixed-length encoding, which the source comment on line 152 calls
`Field::SIZE_IN_BYTES` — the byte length holding `size_in_bits` bits. The
concrete `Field` implementation is outside the sampled sources. -/
def size_in_bytes (bits : Nat) : Nat :=
  (bits + 7) / 8

/-! ## Helper lemmas -/

theorem zip_eq_of_length_eq {α β : Type} :
    ∀ (xs : List α) (ys : List β), xs.length = ys.length →
      zip_eq xs ys = some (xs.zip ys) := by
  intro xs
  induction xs with
  | nil =>
    intro ys h
    cases ys with
    | nil => rfl
    | cons y ys => simp at h
  | cons x xs ih =>
    intro ys h
    cases ys with
    | nil => simp at h
    | cons y ys =>
      simp only [List.length_cons] at h
      have h2 : xs.length = ys.length := by omega
      simp [zip_eq, ih ys h2]

theorem indicators_length (DEPTH leaf_index : Nat) :
    (indicators DEPTH leaf_index).length = DEPTH := by
  simp [indicators]

theorem verify_total (DEPTH : Nat) (hash_leaf : L → Option F)
    (hash_children : F → F → Option F) (root : F) (leaf : L)
    (p : MerklePath F) :
    (verify DEPTH hash_leaf hash_children root leaf p).isSome = true := by
  unfold verify
  by_cases h1 : 2 ^ DEPTH ≤ p.leaf_index
  · simp [h1]
  · by_cases h2 : p.siblings.length = DEPTH
    · have hz : zip_eq (indicators DEPTH p.leaf_index) p.siblings
          = some ((indicators DEPTH p.leaf_index).zip p.siblings) :=
        zip_eq_of_length_eq _ _ (by simp [indicators, h2])
      cases hl : hash_leaf leaf with
      | none => simp [h1, h2, hl]
      | some h0 =>
        cases hf : fold_levels hash_children h0
            ((indicators DEPTH p.leaf_index).zip p.siblings) with
        | none => simp [h1, h2, hl, hz, hf]
        | some fh => simp [h1, h2, hl, hz, hf]
    · simp [h1, h2]

theorem fold_levels_count_fst (hash_children : F → F → Option F) :
    ∀ (levels : List (Bool × F)) (h : F) (n : Nat),
      (fold_levels_count hash_children h levels n).1 =
        fold_levels hash_children h levels := by
  intro levels
  induction levels with
  | nil => intro h n; rfl
  | cons hd tl ih =>
    intro h n
    obtain ⟨ind, sib⟩ := hd
    simp only [fold_levels_count, fold_levels]
    cases hhc : hash_children (child_order ind h sib).1 (child_order ind h sib).2 with
    | none => rfl
    | some v => exact ih v (n + 1)

theorem verify_count_fst (DEPTH : Nat) (hash_leaf : L → Option F)
    (hash_children : F → F → Option F) (root : F) (leaf : L)
    (p : MerklePath F) :
    (verify_count DEPTH hash_leaf hash_children root leaf p).1 =
      verify DEPTH hash_leaf hash_children root leaf p := by
  unfold verify_count verify
  by_cases h1 : 2 ^ DEPTH ≤ p.leaf_index
  · simp [h1]
  · by_cases h2 : p.siblings.length = DEPTH
    · cases hl : hash_leaf leaf with
      | none => simp [h1, h2, hl]
      | some h0 =>
        cases hz : zip_eq (indicators DEPTH p.leaf_index) p.siblings with
        | none => simp [h1, h2, hl, hz]
        | some levels =>
          have hfc := fold_levels_count_fst hash_children levels h0 0
          cases hf : fold_levels_count hash_children h0 levels 0 with
          | mk r n =>
            rw [hf] at hfc
            cases r with
            | none => simp [h1, h2, hl, hz, hf, ← hfc]
            | some fh => simp [h1, h2, hl, hz, hf, ← hfc]
    · simp [h1, h2]

/-! ## Claim theorems: totality and early returns -/

/-- Claim C10: for every `DEPTH` in `[1,64]` and every `MerklePath` value,
`verify` is total — it never panics (always returns `some` boolean), and the
strict pairing `zip_eq` of the `DEPTH` indicator bits with the siblings list
always succeeds once the `siblings.len() == DEPTH` check has passed, because
the two sequences then have equal length. -/
theorem claim_C10_verify_is_total (DEPTH : Nat) (hD1 : 1 ≤ DEPTH)
    (hD64 : DEPTH ≤ 64) (hash_leaf : L → Option F)
    (hash_children : F → F → Option F) (root : F) (leaf : L)
    (p : MerklePath F) :
    (verify DEPTH hash_leaf hash_children root leaf p).isSome = true ∧
      (p.siblings.length = DEPTH →
        (zip_eq (indicators DEPTH p.leaf_index) p.siblings).isSome = true) := by
  refine ⟨verify_total DEPTH hash_leaf hash_children root leaf p, fun h2 => ?_⟩
  rw [zip_eq_of_length_eq _ _ (by simp [indicators, h2])]
  rfl

/-- Witness for C10 at `DEPTH = 1`, `p = ⟨0, [5]⟩` over `F = Nat`. -/
theorem claim_C10_witness :
    (verify 1 (fun _ : Nat => some (0 : Nat)) (fun _ _ => some 0) 0 0
        ⟨0, [5]⟩).isSome = true ∧
      ((⟨0, [5]⟩ : MerklePath Nat).siblings.length = 1 →
        (zip_eq (indicators 1 (⟨0, [5]⟩ : MerklePath Nat).leaf_index)
          (⟨0, [5]⟩ : MerklePath Nat).siblings).isSome = true) :=
  claim_C10_verify_is_total 1 (by decide) (by decide)
    (fun _ : Nat => some (0 : Nat)) (fun _ _ => some 0) 0 0 ⟨0, [5]⟩

/-- Claim C2: if `leaf_index ≥ 2 ^ DEPTH` or `siblings.len() ≠ DEPTH`, then
`verify` returns `false` immediately, for every choice of leaf hasher and path
hasher, and the instrumented run makes zero `hash_leaf` calls and zero
`hash_children` calls. -/
theorem claim_C2_invalid_path_early_false (DEPTH : Nat) (p : MerklePath F)
    (h : 2 ^ DEPTH ≤ p.leaf_index ∨ p.siblings.length ≠ DEPTH) :
    ∀ (hash_leaf : L → Option F) (hash_children : F → F → Option F)
      (root : F) (leaf : L),
      verify DEPTH hash_leaf hash_children root leaf p = some false ∧
        verify_count DEPTH hash_leaf hash_children root leaf p =
          (some false, 0, 0) := by
  intro hash_leaf hash_children root leaf
  rcases h with h | h
  · constructor <;> simp [verify, verify_count, h]
  · by_cases h1 : 2 ^ DEPTH ≤ p.leaf_index
    · constructor <;> simp [verify, verify_count, h1]
    · constructor <;> simp [verify, verify_count, h1, h]

/-- Witness for C2 at `DEPTH = 1`, `p = ⟨5, []⟩` over `F = Nat` (both the
bound and the length invariant are violated). -/
theorem claim_C2_witness :
    verify 1 (fun _ : Nat => some (9 : Nat)) (fun _ _ => some 9) 0 0
        (⟨5, []⟩ : MerklePath Nat) = some false ∧
      verify_count 1 (fun _ : Nat => some (9 : Nat)) (fun _ _ => some 9) 0 0
        (⟨5, []⟩ : MerklePath Nat) = (some false, 0, 0) :=
  claim_C2_invalid_path_early_false 1 ⟨5, []⟩ (Or.inl (by decide))
    (fun _ : Nat => some (9 : Nat)) (fun _ _ => some 9) 0 0

/-- Claim C3: every failure mode of `verify` collapses to the boolean
`false` — if the leaf hasher fails the result is `some false`; if any
`hash_children` call of the level loop fails (that is, `fold_levels` on the
zipped levels returns `none`) the result is `some false`; and on every input
`verify` returns a plain boolean (`some false` or `some true`), never a panic
and never a typed error. -/
theorem claim_C3_failures_collapse_to_false (DEPTH : Nat)
    (hash_leaf : L → Option F) (hash_children : F → F → Option F) (root : F)
    (leaf : L) (p : MerklePath F) :
    (hash_leaf leaf = none →
      verify DEPTH hash_leaf hash_children root leaf p = some false) ∧
      (∀ (h0 : F) (levels : List (Bool × F)), hash_leaf leaf = some h0 →
        zip_eq (indicators DEPTH p.leaf_index) p.siblings = some levels →
        fold_levels hash_children h0 levels = none →
        verify DEPTH hash_leaf hash_children root leaf p = some false) ∧
      (verify DEPTH hash_leaf hash_children root leaf p = some false ∨
        verify DEPTH hash_leaf hash_children root leaf p = some true) := by
  refine ⟨fun hl => ?_, fun h0 levels hl hz hf => ?_, ?_⟩
  · unfold verify
    by_cases h1 : 2 ^ DEPTH ≤ p.leaf_index
    · simp [h1]
    · by_cases h2 : p.siblings.length = DEPTH
      · simp [h1, h2, hl]
      · simp [h1, h2]
  · unfold verify
    by_cases h1 : 2 ^ DEPTH ≤ p.leaf_index
    · simp [h1]
    · by_cases h2 : p.siblings.length = DEPTH
      · simp [h1, h2, hl, hz, hf]
      · simp [h1, h2]
  · have hs := verify_total DEPTH hash_leaf hash_children root leaf p
    cases hv : verify DEPTH hash_leaf hash_children root leaf p with
    | none => rw [hv] at hs; simp at hs
    | some b => cases b with
      | false => exact Or.inl rfl
      | true => exact Or.inr rfl

/-- Witness for C3: a leaf hasher that fails makes `verify` return
`some false` on an otherwise valid path. -/
theorem claim_C3_witness :
    verify 1 (fun _ : Nat => (none : Option Nat)) (fun _ _ => some 0) 0 0
      (⟨0, [5]⟩ : MerklePath Nat) = some false :=
  (claim_C3_failures_collapse_to_false 1 (fun _ : Nat => (none : Option Nat))
    (fun _ _ => some 0) 0 0 ⟨0, [5]⟩).1 rfl

/-! ## Claim theorems: the verification loop -/

theorem fold_levels_count_snd (hash_children : F → F → Option F)
    (htotal : ∀ l r, (hash_children l r).isSome = true) :
    ∀ (levels : List (Bool × F)) (h : F) (n : Nat),
      (fold_levels_count hash_children h levels n).2 = n + levels.length := by
  intro levels
  induction levels with
  | nil => intro h n; rfl
  | cons hd tl ih =>
    intro h n
    obtain ⟨ind, sib⟩ := hd
    simp only [fold_levels_count]
    cases hhc : hash_children (child_order ind h sib).1 (child_order ind h sib).2 with
    | none =>
      have := htotal (child_order ind h sib).1 (child_order ind h sib).2
      rw [hhc] at this
      simp at this
    | some v =>
      rw [ih v (n + 1)]
      simp only [List.length_cons]
      omega

/-- Claim C9: for a valid path and hashers whose calls all succeed, the
instrumented `verify` makes exactly `DEPTH` `hash_children` calls (and one
`hash_leaf` call) — the loop runs over all `DEPTH` levels with no early
termination, whatever the leaf position. -/
theorem claim_C9_exactly_depth_hash_calls (DEPTH : Nat) (hD1 : 1 ≤ DEPTH)
    (hD64 : DEPTH ≤ 64) (p : MerklePath F)
    (hidx : p.leaf_index < 2 ^ DEPTH) (hlen : p.siblings.length = DEPTH)
    (hash_leaf : L → Option F) (hash_children : F → F → Option F) (root : F)
    (leaf : L) (h0 : F) (hleaf : hash_leaf leaf = some h0)
    (htotal : ∀ l r, (hash_children l r).isSome = true) :
    (verify_count DEPTH hash_leaf hash_children root leaf p).2.2 = DEPTH ∧
      (verify_count DEPTH hash_leaf hash_children root leaf p).2.1 = 1 := by
  unfold verify_count
  have h1 : ¬ 2 ^ DEPTH ≤ p.leaf_index := Nat.not_le.mpr hidx
  have hz : zip_eq (indicators DEPTH p.leaf_index) p.siblings
      = some ((indicators DEPTH p.leaf_index).zip p.siblings) :=
    zip_eq_of_length_eq _ _ (by simp [indicators, hlen])
  have hzl : ((indicators DEPTH p.leaf_index).zip p.siblings).length = DEPTH := by
    simp [List.length_zip, indicators, hlen]
  have hcount := fold_levels_count_snd hash_children htotal
    ((indicators DEPTH p.leaf_index).zip p.siblings) h0 0
  cases hf : fold_levels_count hash_children h0
      ((indicators DEPTH p.leaf_index).zip p.siblings) 0 with
  | mk r n =>
    rw [hf] at hcount
    simp only at hcount
    cases r with
    | none => simp [h1, hlen, hleaf, hz, hf]; omega
    | some fh => simp [h1, hlen, hleaf, hz, hf]; omega

/-- Witness for C9 at `DEPTH = 2`, `leaf_index = 2`, over `F = Nat`. -/
theorem claim_C9_witness :
    (verify_count 2 (fun _ : Nat => some (1 : Nat))
        (fun l r => some (2 * l + 3 * r)) 65 0 ⟨2, [5, 7]⟩).2.2 = 2 ∧
      (verify_count 2 (fun _ : Nat => some (1 : Nat))
        (fun l r => some (2 * l + 3 * r)) 65 0 ⟨2, [5, 7]⟩).2.1 = 1 :=
  claim_C9_exactly_depth_hash_calls 2 (by decide) (by decide) ⟨2, [5, 7]⟩
    (by decide) (by decide) (fun _ : Nat => some (1 : Nat))
    (fun l r => some (2 * l + 3 * r)) 65 0 1 rfl (fun _ _ => rfl)

theorem indicator_eq_not_testBit (leaf_index i : Nat) :
    ((leaf_index >>> i) &&& 1 == 0) = !leaf_index.testBit i := by
  rw [Nat.and_one_is_mod, Nat.testBit_to_div_mod, Nat.shiftRight_eq_div_pow]
  rcases Nat.mod_two_eq_zero_or_one (leaf_index / 2 ^ i) with h | h <;> simp [h]

theorem fold_levels_eq_spec_fold (f : F → F → F) (leaf_index : Nat) :
    ∀ (sibs : List F) (i : Nat) (h : F),
      fold_levels (fun l r => some (f l r)) h
        (List.zipWith Prod.mk
          ((List.range' i sibs.length).map (fun j => !leaf_index.testBit j))
          sibs) =
        some (spec_fold f leaf_index i h sibs) := by
  intro sibs
  induction sibs with
  | nil => intro i h; rfl
  | cons s rest ih =>
    intro i h
    rw [List.length_cons, List.range'_succ]
    simp only [List.map_cons, List.zipWith_cons_cons]
    cases hb : leaf_index.testBit i with
    | false =>
      simp only [fold_levels, spec_fold, hb, Bool.not_false, child_order]
      exact ih (i + 1) (f h s)
    | true =>
      simp only [fold_levels, spec_fold, hb, Bool.not_true, child_order]
      exact ih (i + 1) (f s h)

theorem zip_indicators_eq_zipWith (DEPTH leaf_index : Nat)
    (siblings : List F) (hlen : siblings.length = DEPTH) :
    (indicators DEPTH leaf_index).zip siblings =
      List.zipWith Prod.mk
        ((List.range' 0 siblings.length).map (fun j => !leaf_index.testBit j))
        siblings := by
  subst hlen
  have hfun : (fun i => (leaf_index >>> i) &&& 1 == 0) =
      (fun j => !leaf_index.testBit j) :=
    funext fun i => indicator_eq_not_testBit leaf_index i
  rw [indicators, List.range_eq_range', hfun]
  simp [List.zip]

theorem verify_eq_spec_fold (DEPTH : Nat) (leaf_index : Nat)
    (siblings : List F) (hidx : leaf_index < 2 ^ DEPTH)
    (hlen : siblings.length = DEPTH) (hash_leaf : L → Option F)
    (f : F → F → F) (hash_children : F → F → Option F) (root : F) (leaf : L)
    (h0 : F) (hleaf : hash_leaf leaf = some h0)
    (hch : ∀ l r, hash_children l r = some (f l r)) :
    verify DEPTH hash_leaf hash_children root leaf ⟨leaf_index, siblings⟩ =
      some (decide (spec_fold f leaf_index 0 h0 siblings = root)) := by
  subst hlen
  have hch_eq : hash_children = fun l r => some (f l r) :=
    funext fun l => funext fun r => hch l r
  subst hch_eq
  have h1 : ¬ 2 ^ siblings.length ≤ leaf_index := Nat.not_le.mpr hidx
  have hz : zip_eq (indicators siblings.length leaf_index) siblings
      = some ((indicators siblings.length leaf_index).zip siblings) :=
    zip_eq_of_length_eq _ _ (by simp [indicators])
  simp only [verify, h1, if_false, hleaf, hz,
    zip_indicators_eq_zipWith siblings.length leaf_index siblings rfl,
    fold_levels_eq_spec_fold f leaf_index siblings 0 h0]
  simp

/-- Claim C1: for every valid `MerklePath` (`DEPTH` in `[1,64]`,
`leaf_index < 2 ^ DEPTH`, `DEPTH` siblings) and hashers whose calls all
succeed, `verify` returns true iff folding upward from the leaf hash — where
level `i` hashes `(current, siblings[i])` when bit `i` of `leaf_index` is 0
and `(siblings[i], current)` when bit `i` is 1 — yields a value equal to the
claimed root; in particular for `DEPTH = 2`, `leaf_index = 2` it returns true
iff `hash_children(S1, hash_children(leaf_hash, S0)) = root`. -/
theorem claim_C1_verify_iff_upward_fold (DEPTH : Nat) (hD1 : 1 ≤ DEPTH)
    (hD64 : DEPTH ≤ 64) (leaf_index : Nat) (siblings : List F)
    (hidx : leaf_index < 2 ^ DEPTH) (hlen : siblings.length = DEPTH)
    (hash_leaf : L → Option F) (f : F → F → F)
    (hash_children : F → F → Option F) (root : F) (leaf : L) (h0 : F)
    (hleaf : hash_leaf leaf = some h0)
    (hch : ∀ l r, hash_children l r = some (f l r)) :
    (verify DEPTH hash_leaf hash_children root leaf ⟨leaf_index, siblings⟩ =
        some true ↔ spec_fold f leaf_index 0 h0 siblings = root) ∧
      ∀ s0 s1 root2 : F,
        verify 2 hash_leaf hash_children root2 leaf ⟨2, [s0, s1]⟩ =
            some true ↔ f s1 (f h0 s0) = root2 := by
  constructor
  · rw [verify_eq_spec_fold DEPTH leaf_index siblings hidx hlen hash_leaf f
      hash_children root leaf h0 hleaf hch]
    simp
  · intro s0 s1 root2
    rw [verify_eq_spec_fold 2 2 [s0, s1] (by norm_num) rfl hash_leaf f
      hash_children root2 leaf h0 hleaf hch]
    have hb0 : Nat.testBit 2 0 = false := by decide
    have hb1 : Nat.testBit 2 1 = true := by decide
    have hsf : spec_fold f 2 0 h0 [s0, s1] = f s1 (f h0 s0) := by
      simp [spec_fold, hb0, hb1]
    rw [hsf]
    simp

/-- Witness for C1 at `DEPTH = 2`, `leaf_index = 2`, `siblings = [5, 7]`,
`f l r = 2 * l + 3 * r`, leaf hash `1`, over `F = Nat` (the fold yields
`f 7 (f 1 5) = 65`). -/
theorem claim_C1_witness :
    verify 2 (fun _ : Nat => some (1 : Nat)) (fun l r => some (2 * l + 3 * r))
        65 0 ⟨2, [5, 7]⟩ = some true ↔
      spec_fold (fun l r => 2 * l + 3 * r) 2 0 1 [5, 7] = 65 :=
  (claim_C1_verify_iff_upward_fold 2 (by decide) (by decide) 2 [5, 7]
    (by decide) rfl (fun _ : Nat => some (1 : Nat))
    (fun l r => 2 * l + 3 * r) (fun l r => some (2 * l + 3 * r)) 65 0 1 rfl
    (fun _ _ => rfl)).1

/-! ## Claim theorems: codec -/

theorem to_le_bytes_length : ∀ (n k : Nat), (to_le_bytes n k).length = k := by
  intro n k
  induction k generalizing n with
  | zero => rfl
  | succ k ih => simp [to_le_bytes, ih]

theorem from_le_bytes_to_le_bytes :
    ∀ (k n : Nat), from_le_bytes (to_le_bytes n k) = n % 256 ^ k := by
  intro k
  induction k with
  | zero => intro n; simp [to_le_bytes, from_le_bytes, Nat.mod_one]
  | succ k ih =>
    intro n
    simp only [to_le_bytes, from_le_bytes, ih]
    rw [Nat.pow_succ', Nat.mod_mul]

theorem read_u64_to_le_bytes (n : Nat) (hn : n < 2 ^ 64) (rest : List Nat) :
    read_u64 (to_le_bytes n 8 ++ rest) = some (n, rest) := by
  have hlen : (to_le_bytes n 8).length = 8 := to_le_bytes_length n 8
  unfold read_u64
  rw [List.length_append, hlen, if_neg (by omega), List.take_left' hlen,
    List.drop_left' hlen, from_le_bytes_to_le_bytes]
  have h256 : (256 : Nat) ^ 8 = 2 ^ 64 := by norm_num
  rw [h256, Nat.mod_eq_of_lt hn]

theorem read_fields_flatten (from_bytes_F : List Nat → Option (F × List Nat))
    (to_bytes_F : F → List Nat)
    (hround : ∀ (x : F) (rest : List Nat),
      from_bytes_F (to_bytes_F x ++ rest) = some (x, rest)) :
    ∀ (sibs : List F) (rest : List Nat),
      read_fields from_bytes_F sibs.length
          ((sibs.map to_bytes_F).flatten ++ rest) =
        some (sibs, rest) := by
  intro sibs
  induction sibs with
  | nil => intro rest; rfl
  | cons x xs ih =>
    intro rest
    simp only [List.map_cons, List.flatten_cons, List.length_cons,
      List.append_assoc, read_fields, hround, ih]

/-- Claim C6: for every valid `MerklePath` (`DEPTH` in `[1,64]`,
`leaf_index < 2 ^ DEPTH`, `DEPTH` siblings) and a field codec whose decoder is
a left inverse of its canonical encoder, decoding the bytes produced by
encoding the path succeeds, consumes the whole buffer, and yields a path
structurally equal to the original on both `leaf_index` and `siblings`. -/
theorem claim_C6_round_trip (DEPTH : Nat) (hD1 : 1 ≤ DEPTH)
    (hD64 : DEPTH ≤ 64) (leaf_index : Nat) (siblings : List F)
    (hidx : leaf_index < 2 ^ DEPTH) (hlen : siblings.length = DEPTH)
    (to_bytes_F : F → List Nat)
    (from_bytes_F : List Nat → Option (F × List Nat))
    (hround : ∀ (x : F) (rest : List Nat),
      from_bytes_F (to_bytes_F x ++ rest) = some (x, rest)) :
    read_le DEPTH from_bytes_F (write_le to_bytes_F ⟨leaf_index, siblings⟩) =
      some (⟨leaf_index, siblings⟩, []) := by
  subst hlen
  have hidx64 : leaf_index < 2 ^ 64 :=
    lt_of_lt_of_le hidx (Nat.pow_le_pow_right (by norm_num) hD64)
  have hread : read_fields from_bytes_F siblings.length
      (siblings.map to_bytes_F).flatten = some (siblings, []) := by
    have hr := read_fields_flatten from_bytes_F to_bytes_F hround siblings []
    rwa [List.append_nil] at hr
  have c1 : ¬ siblings.length = 0 := by omega
  have c2 : ¬ 64 < siblings.length := by omega
  have c3 : ¬ 2 ^ siblings.length ≤ leaf_index := Nat.not_le.mpr hidx
  simp only [write_le, read_le, read_u64_to_le_bytes leaf_index hidx64, hread]
  simp [try_from, c1, c2, c3]

/-- Witness for C6 at `DEPTH = 1`, `leaf_index = 1`, `siblings = [5]` over
`F = Nat` with the one-byte codec `x ↦ [x]`. -/
theorem claim_C6_witness :
    read_le 1 (fun bs => match bs with
        | [] => none
        | b :: r => some ((b : Nat), r))
      (write_le (fun x => [x]) ⟨1, [5]⟩) = some (⟨1, [5]⟩, []) :=
  claim_C6_round_trip 1 (by decide) (by decide) 1 [5] (by decide) rfl
    (fun x => [x])
    (fun bs => match bs with
      | [] => none
      | b :: r => some ((b : Nat), r))
    (fun _ _ => rfl)

theorem to_le_bytes_getD :
    ∀ (k j n : Nat), j < k →
      (to_le_bytes n k).getD j 0 = n / 256 ^ j % 256 := by
  intro k
  induction k with
  | zero => intro j n h; omega
  | succ k ih =>
    intro j n h
    cases j with
    | zero => simp [to_le_bytes]
    | succ j =>
      simp only [to_le_bytes, List.getD_cons_succ, ih j (n / 256) (by omega),
        Nat.div_div_eq_div_mul, Nat.pow_succ']

theorem flatten_map_length (to_bytes_F : F → List Nat) (Lsz : Nat)
    (hlen : ∀ x, (to_bytes_F x).length = Lsz) :
    ∀ sibs : List F,
      ((sibs.map to_bytes_F).flatten).length = sibs.length * Lsz := by
  intro sibs
  induction sibs with
  | nil => simp
  | cons x xs ih =>
    rw [List.map_cons, List.flatten_cons, List.length_append, hlen, ih,
      List.length_cons, Nat.succ_mul]
    omega

theorem drop_append_of_length {α : Type} (l1 l2 : List α) (n k : Nat)
    (h : l1.length = n) : (l1 ++ l2).drop (n + k) = l2.drop k := by
  subst h
  rw [List.drop_append]

theorem flatten_segment (to_bytes_F : F → List Nat) (Lsz : Nat)
    (hlen : ∀ x, (to_bytes_F x).length = Lsz) :
    ∀ (sibs : List F) (i : Nat) (h : i < sibs.length),
      ((sibs.map to_bytes_F).flatten.drop (i * Lsz)).take Lsz =
        to_bytes_F (sibs.get ⟨i, h⟩) := by
  intro sibs
  induction sibs with
  | nil => intro i h; exact absurd h (by simp)
  | cons x xs ih =>
    intro i h
    cases i with
    | zero =>
      simp only [List.map_cons, List.flatten_cons, Nat.zero_mul,
        List.drop_zero]
      rw [List.take_left' (hlen x)]
      rfl
    | succ i =>
      simp only [List.map_cons, List.flatten_cons, Nat.succ_mul]
      rw [Nat.add_comm (i * Lsz) Lsz,
        drop_append_of_length (to_bytes_F x) _ Lsz (i * Lsz) (hlen x)]
      exact ih i (by simpa using h)

/-- Claim C7: `write_le` writes the leaf index as a fixed 8-byte
little-endian integer (byte `j` is `leaf_index / 256 ^ j % 256`), followed by
each sibling's fixed-length encoding in order, level 0 first (the `i`-th
`Lsz`-byte segment after the first 8 bytes is the encoding of `siblings[i]`),
and the total output length is `8 + DEPTH * Lsz` where `Lsz` is the field
element byte length. -/
theorem claim_C7_write_le_layout (DEPTH : Nat) (leaf_index : Nat)
    (siblings : List F) (hlen : siblings.length = DEPTH)
    (to_bytes_F : F → List Nat) (Lsz : Nat)
    (hL : ∀ x, (to_bytes_F x).length = Lsz) :
    (write_le to_bytes_F ⟨leaf_index, siblings⟩).length = 8 + DEPTH * Lsz ∧
      (write_le to_bytes_F ⟨leaf_index, siblings⟩).take 8 =
        to_le_bytes leaf_index 8 ∧
      (∀ j, j < 8 →
        (to_le_bytes leaf_index 8).getD j 0 = leaf_index / 256 ^ j % 256) ∧
      ∀ (i : Nat) (hi : i < siblings.length),
        ((write_le to_bytes_F ⟨leaf_index, siblings⟩).drop (8 + i * Lsz)).take
            Lsz = to_bytes_F (siblings.get ⟨i, hi⟩) := by
  subst hlen
  have h8 : (to_le_bytes leaf_index 8).length = 8 := to_le_bytes_length _ _
  refine ⟨?_, ?_, ?_, ?_⟩
  · unfold write_le
    rw [List.length_append, h8, flatten_map_length to_bytes_F Lsz hL]
  · unfold write_le
    rw [List.take_left' h8]
  · intro j hj
    exact to_le_bytes_getD 8 j leaf_index hj
  · intro i hi
    unfold write_le
    rw [drop_append_of_length (to_le_bytes leaf_index 8) _ 8 (i * Lsz) h8,
      flatten_segment to_bytes_F Lsz hL siblings i hi]

/-- Witness for C7 at `DEPTH = 2`, `leaf_index = 258`, `siblings = [5, 7]`
over `F = Nat` with the 2-byte codec. -/
theorem claim_C7_witness :
    (write_le (fun x => to_le_bytes x 2) ⟨258, [5, 7]⟩).length = 8 + 2 * 2 ∧
      (write_le (fun x => to_le_bytes x 2) ⟨258, [5, 7]⟩).take 8 =
        to_le_bytes 258 8 ∧
      (∀ j, j < 8 →
        (to_le_bytes 258 8).getD j 0 = 258 / 256 ^ j % 256) ∧
      ∀ (i : Nat) (hi : i < ([5, 7] : List Nat).length),
        ((write_le (fun x => to_le_bytes x 2) ⟨258, [5, 7]⟩).drop
            (8 + i * 2)).take 2 =
          to_le_bytes (([5, 7] : List Nat).get ⟨i, hi⟩) 2 :=
  claim_C7_write_le_layout 2 258 [5, 7] rfl (fun x => to_le_bytes x 2) 2
    (fun x => to_le_bytes_length x 2)

/-- Counterexample to claim C4 as stated: at `DEPTH = 8` with the 253-bit
field element of the surrounding system, the size computed by the
deserializer is `8 + (8 * 260) / 8 = 268`, while the spec's Contract C
formula `8 + ceil(8 * 253 / 8)` gives `261`. (The two formulas already
disagree at `DEPTH = 8` for every bit length, since `8 * (bits + 7) / 8 =
bits + 7` while `ceil(8 * bits / 8) = bits`.) -/
theorem claim_C4_counterexample :
    expected_size 8 253 = 268 ∧ spec_expected_size 8 253 = 261 ∧
      ¬ expected_size 8 253 = spec_expected_size 8 253 := by decide

/-- Claim C4 as amended: for every `DEPTH` in `[1,64]`, `expected_size`
returns `8 + DEPTH * (field_element_bit_length + 7) / 8` with floor division
grouped as `(DEPTH * (bits + 7)) / 8` — equivalently `8 + DEPTH *
field_element_byte_length + DEPTH * ((bits + 7) mod 8) / 8`, which exceeds
`8 + DEPTH * field_element_byte_length` whenever `bits + 7` is not a multiple
of 8 and `DEPTH * ((bits + 7) mod 8) ≥ 8`. -/
theorem claim_C4_expected_size_formula (DEPTH bits : Nat) (hD1 : 1 ≤ DEPTH)
    (hD64 : DEPTH ≤ 64) :
    expected_size DEPTH bits =
      8 + DEPTH * size_in_bytes bits + DEPTH * ((bits + 7) % 8) / 8 := by
  unfold expected_size size_in_bytes
  have h : 8 * ((bits + 7) / 8) + (bits + 7) % 8 = bits + 7 :=
    Nat.div_add_mod (bits + 7) 8
  have h2 : DEPTH * (bits + 7) =
      DEPTH * ((bits + 7) % 8) + 8 * (DEPTH * ((bits + 7) / 8)) := by
    calc DEPTH * (bits + 7)
        = DEPTH * (8 * ((bits + 7) / 8) + (bits + 7) % 8) := by rw [h]
      _ = DEPTH * ((bits + 7) % 8) + 8 * (DEPTH * ((bits + 7) / 8)) := by
          ring
  rw [h2, Nat.add_mul_div_left _ _ (show 0 < 8 by norm_num)]
  omega

/-- Witness for the amended C4 at `DEPTH = 8`, `bits = 253`:
`expected_size = 268 = 8 + 8 * 32 + (8 * 4) / 8`. -/
theorem claim_C4_witness :
    expected_size 8 253 =
      8 + 8 * size_in_bytes 253 + 8 * ((253 + 7) % 8) / 8 :=
  claim_C4_expected_size_formula 8 253 (by decide) (by decide)

set_option maxRecDepth 8192 in
/-- Claim C5 evaluated at the failing input: at `DEPTH = 8` with a 253-bit
field element (canonical byte length `size_in_bytes 253 = 32`), a valid path
encodes to `8 + 8 * 32 = 264` bytes, but the deserializer's
`expected_size 8 253` is `268` — the self-describing decode size does not
equal the encoded length, contradicting both the spec and the source's own
comment `u64 + (Field::SIZE_IN_BYTES * DEPTH)` on line 152. -/
theorem claim_C5_size_mismatch :
    size_in_bytes 253 = 32 ∧
      (write_le (fun x => to_le_bytes x 32)
          (⟨0, List.replicate 8 (0 : Nat)⟩ : MerklePath Nat)).length =
        8 + 8 * size_in_bytes 253 ∧
      expected_size 8 253 = 268 ∧
      ¬ (8 + 8 * size_in_bytes 253 = expected_size 8 253) := by decide

/-- Claim C8: `try_from` checks the invariants in order — depth in `[1,64]`
first (both violations report `InvalidDepth`), then the leaf-index bound,
then the path length — and, given a valid depth, it fails with
`LeafIndexOutOfBounds` iff `leaf_index ≥ 2 ^ DEPTH`, fails with
`PathLengthMismatch` iff the index is in bounds but `siblings.len() ≠ DEPTH`
(the first violated invariant determines the error), and otherwise
succeeds, storing the pair verbatim. -/
theorem claim_C8_try_from_error_order (DEPTH : Nat) :
    ((DEPTH = 0 ∨ 64 < DEPTH) → ∀ (leaf_index : Nat) (siblings : List F),
      try_from DEPTH leaf_index siblings = .error .InvalidDepth) ∧
      (1 ≤ DEPTH → DEPTH ≤ 64 →
        ∀ (leaf_index : Nat) (siblings : List F),
          (try_from DEPTH leaf_index siblings =
              .error .LeafIndexOutOfBounds ↔ 2 ^ DEPTH ≤ leaf_index) ∧
            (try_from DEPTH leaf_index siblings =
                .error .PathLengthMismatch ↔
              leaf_index < 2 ^ DEPTH ∧ siblings.length ≠ DEPTH) ∧
            (leaf_index < 2 ^ DEPTH → siblings.length = DEPTH →
              try_from DEPTH leaf_index siblings =
                .ok ⟨leaf_index, siblings⟩)) := by
  constructor
  · intro h leaf_index siblings
    rcases h with h | h
    · simp [try_from, h]
    · have h0 : ¬ DEPTH = 0 := by omega
      simp [try_from, h0, h]
  · intro hD1 hD64 leaf_index siblings
    have h0 : ¬ DEPTH = 0 := by omega
    have h64 : ¬ 64 < DEPTH := by omega
    by_cases hidx : 2 ^ DEPTH ≤ leaf_index
    · refine ⟨by simp [try_from, h0, h64, hidx], ?_, ?_⟩
      · simp only [try_from, if_neg h0, if_neg h64, if_pos hidx]
        constructor
        · intro h
          exact absurd h (by simp)
        · intro h
          omega
      · intro h _
        omega
    · by_cases hlen : siblings.length = DEPTH
      · refine ⟨?_, ?_, fun _ _ => by simp [try_from, h0, h64, hidx, hlen]⟩
        · simp [try_from, h0, h64, hidx, hlen]
        · simp [try_from, h0, h64, hidx, hlen]
      · refine ⟨?_, ?_, fun _ h => absurd h hlen⟩
        · simp [try_from, h0, h64, hidx, hlen]
        · simp [try_from, h0, h64, hidx, hlen]
          omega

/-- Witness for C8 at `DEPTH = 2` over `F = Nat`: an out-of-range leaf index
reports `LeafIndexOutOfBounds` even though the length is also wrong. -/
theorem claim_C8_witness :
    (try_from 2 5 [(1 : Nat)] = .error .LeafIndexOutOfBounds ↔
        2 ^ 2 ≤ 5) ∧
      (try_from 2 5 [(1 : Nat)] = .error .PathLengthMismatch ↔
        5 < 2 ^ 2 ∧ ([(1 : Nat)] : List Nat).length ≠ 2) ∧
      (5 < 2 ^ 2 → ([(1 : Nat)] : List Nat).length = 2 →
        try_from 2 5 [(1 : Nat)] = .ok ⟨5, [(1 : Nat)]⟩) :=
  (claim_C8_try_from_error_order 2).2 (by decide) (by decide) 5 [(1 : Nat)]

end SnarkVM
